import Mathlib

/-!
Shallow embedding of the qvibe-recorder core: the mock i2c transport and
synthetic sample provider (`qvibe/i2cio.py`) and the line-framed command
protocol (`qvibe/interface.py`), together with theorems checking the
natural-language specification against this embedding.

Sample values are modelled as rationals: the Python source holds them as
IEEE doubles, and the only arithmetic performed on them (multiplication
by 32768 = 2^15 and integer truncation) is exact on doubles, so the
rational model is faithful for every representable input.
-/

set_option autoImplicit false

namespace QVibe

/-! ### `qvibe/i2cio.py`: sample conversion -/

/-- Python `int(q)` on a number: truncation toward zero
(floor for nonnegative values, ceiling for negative ones). -/
def int_py (q : ℚ) : ℤ :=
  if 0 ≤ q then ⌊q⌋ else -⌊-q⌋

/-- `MockIoDataProvider.convert_value`:
`i = int(val * 32768); return i if i >= 0 else 65536 + i`. -/
def convert_value (val : ℚ) : ℤ :=
  let i := int_py (val * 32768)
  if 0 ≤ i then i else 65536 + i

/-- Modelled from the spec: the spec's stated conversion rule
`encoded = round(value * 32768)`, wrapped as `65536 + encoded` when the
value is negative.  Kept separate from `convert_value` (which is the
translation of the source) so the two can be compared. -/
def convert_value_spec (val : ℚ) : ℤ :=
  let i := round (val * 32768)
  if 0 ≤ val then i else 65536 + i

/-- Decoding a 16-bit code back to a normalized sample: interpret the code
as a two's-complement signed 16-bit integer and divide by 32768.  This is
the `decode` the spec's round-trip property refers to. -/
def decode (e : ℤ) : ℚ :=
  ((if e < 32768 then e else e - 65536 : ℤ) : ℚ) / 32768

/-- Python `val.to_bytes(2, 'big')`: succeeds with the two big-endian bytes
exactly when `0 ≤ val < 65536`, otherwise raises `OverflowError`
(also raised for negative values). -/
def to_bytes_be2 (val : ℤ) : Option (List ℕ) :=
  if 0 ≤ val ∧ val < 65536 then some [val.toNat / 256, val.toNat % 256] else none

/-- `MockIoDataProvider.add_value(bytes, key)` for one axis: look up the
sample at `idx % len(samples)`, convert it, append its 2-byte big-endian
encoding; on `OverflowError` from `to_bytes` print a diagnostic and append
the encoding of `0` instead.  Returns the extended byte list and the number
of diagnostics printed (0 or 1).  An empty sample list raises an uncaught
`ZeroDivisionError` (`idx % 0`), modelled as `Except.error`. -/
def add_value (idx : ℕ) (samples : List ℚ) (bytes : List ℕ) :
    Except Unit (List ℕ × ℕ) :=
  if samples.length = 0 then
    .error ()
  else
    let sample_val := samples.getD (idx % samples.length) 0
    let val := convert_value sample_val
    match to_bytes_be2 val with
    | some b => .ok (bytes ++ b, 0)
    | none => .ok (bytes ++ [0, 0], 1)

/-- Register addresses imported from the MPU6050 driver module (a file of
this repository not included under `src/`); the values are the standard
MPU-6050 register-map constants.  No claim depends on the numeric values,
only on the three registers being distinct. -/
def MPU6050_RA_INT_STATUS : ℕ := 58

/-- FIFO count register address, see `MPU6050_RA_INT_STATUS`. -/
def MPU6050_RA_FIFO_COUNTH : ℕ := 114

/-- FIFO read/write register address, see `MPU6050_RA_INT_STATUS`. -/
def MPU6050_RA_FIFO_R_W : ℕ := 116

/-- State of a `MockIoDataProvider`: the sample cursor `idx` and the three
waveform lists held in the `samples` dict under keys 'x', 'y', 'z'. -/
structure MockIoDataProvider where
  idx : ℕ
  x : List ℚ
  y : List ℚ
  z : List ℚ
  deriving DecidableEq, Repr

/-- The loop body of the FIFO branch of `MockIoDataProvider.provide`:
`for i in range(to_read): add_value(x); add_value(y); add_value(z); idx += 1`,
accumulating the emitted bytes and the diagnostic count. -/
def fifo_loop (sx sy sz : List ℚ) :
    ℕ → ℕ → List ℕ → ℕ → Except Unit (List ℕ × ℕ × ℕ)
  | idx, 0, bytes, diags => .ok (bytes, idx, diags)
  | idx, n + 1, bytes, diags =>
    match add_value idx sx bytes with
    | .error e => .error e
    | .ok (b1, d1) =>
      match add_value idx sy b1 with
      | .error e => .error e
      | .ok (b2, d2) =>
        match add_value idx sz b2 with
        | .error e => .error e
        | .ok (b3, d3) => fifo_loop sx sy sz (idx + 1) n b3 (diags + d1 + d2 + d3)

/-- Result of `MockIoDataProvider.provide`, which returns values of
different Python shapes depending on the register: a single int, the
2-element FIFO-count list, a bytearray, or a list of 1-byte bytes objects. -/
inductive ProvideResult where
  | byte (b : ℕ)
  | pair (a b : ℕ)
  | block (bs : List ℕ)
  | placeholders (bs : List (List ℕ))
  deriving DecidableEq, Repr

/-- `MockIoDataProvider.provide(register, length=None)`.  Returns the
provided value, the updated provider state and the diagnostic count.
The FIFO branch computes `to_read = length // 6` and runs the
`add_value` loop (the `sleep(0.002 * to_read)` is timing only and is not
modelled); calling it with `length=None` would raise an uncaught
`TypeError` on `None // 6`.  The fallback branch with a length builds
`[x.to_bytes(1, 'big') for x in range(length)]`, which raises
`OverflowError` if `length > 256`. -/
def provide (p : MockIoDataProvider) (register : ℕ) (length : Option ℕ) :
    Except Unit (ProvideResult × MockIoDataProvider × ℕ) :=
  if register = MPU6050_RA_INT_STATUS then
    .ok (.byte 1, p, 0)
  else if register = MPU6050_RA_FIFO_COUNTH then
    .ok (.pair 0 36, p, 0)
  else if register = MPU6050_RA_FIFO_R_W then
    match length with
    | none => .error ()
    | some len =>
      match fifo_loop p.x p.y p.z p.idx (len / 6) [] 0 with
      | .ok (bytes, idx2, diags) => .ok (.block bytes, ⟨idx2, p.x, p.y, p.z⟩, diags)
      | .error e => .error e
  else
    match length with
    | none => .ok (.byte 0, p, 0)
    | some len =>
      if len ≤ 256 then
        .ok (.placeholders ((List.range len).map fun v => [v]), p, 0)
      else
        .error ()

/-- The waveform value `add_value` draws for cursor position `i` from a
sample list: `samples[i % len(samples)]`. -/
def drawn (samples : List ℚ) (i : ℕ) : ℚ :=
  samples.getD (i % samples.length) 0

/-- A sample value whose converted code fits the unsigned 2-byte packing. -/
def Encodable16 (v : ℚ) : Prop :=
  0 ≤ convert_value v ∧ convert_value v < 65536

instance (v : ℚ) : Decidable (Encodable16 v) := by
  unfold Encodable16; infer_instance

/-- The 2-byte big-endian encoding of a sample value, as emitted by
`add_value` when no overflow occurs. -/
def enc2 (v : ℚ) : List ℕ :=
  [(convert_value v).toNat / 256, (convert_value v).toNat % 256]

/-- One 6-byte x,y,z sample set emitted by the FIFO branch at cursor `i`. -/
def sampleSet (p : MockIoDataProvider) (i : ℕ) : List ℕ :=
  enc2 (drawn p.x i) ++ enc2 (drawn p.y i) ++ enc2 (drawn p.z i)

/-! ### `qvibe/i2cio.py`: the recording transport `mockIO` -/

/-- State of a `mockIO` transport: the write log, the optional pluggable
data provider (called with the register and, for block reads, the length),
and the pre-seeded FIFO queue `vals_to_read` (front of the list = next
value `get_nowait` returns). -/
structure mockIO (α : Type) where
  values_written : List (ℕ × ℕ × ℕ)
  data_provider : Option (ℕ → Option ℕ → Option α)
  vals_to_read : List α

/-- `Queue.get_nowait()`: pop the front of the queue, or raise
`queue.Empty` (the transport-exhausted condition) when empty. -/
def get_nowait {α : Type} (io : mockIO α) : Except Unit (α × mockIO α) :=
  match io.vals_to_read with
  | [] => .error ()
  | v :: rest => .ok (v, ⟨io.values_written, io.data_provider, rest⟩)

/-- `mockIO.write`: append `[i2c_address, register, val]` to the log. -/
def mockIO.write {α : Type} (io : mockIO α) (i2c_address register val : ℕ) :
    mockIO α :=
  ⟨io.values_written ++ [(i2c_address, register, val)], io.data_provider, io.vals_to_read⟩

/-- `mockIO.read_block`: consult the data provider with
`(register, length)` if present; a non-`None` answer is returned as is,
otherwise fall back to `vals_to_read.get_nowait()`. -/
def mockIO.read_block {α : Type} (io : mockIO α)
    (i2c_address register length : ℕ) : Except Unit (α × mockIO α) :=
  match io.data_provider with
  | some dp =>
    match dp register (some length) with
    | some ret => .ok (ret, io)
    | none => get_nowait io
  | none => get_nowait io

/-- `mockIO.read`: as `read_block` but the provider is called with the
register only (Python default `length=None`). -/
def mockIO.read {α : Type} (io : mockIO α) (i2c_address register : ℕ) :
    Except Unit (α × mockIO α) :=
  match io.data_provider with
  | some dp =>
    match dp register none with
    | some ret => .ok (ret, io)
    | none => get_nowait io
  | none => get_nowait io

/-! ### `qvibe/interface.py`: JSON values and the command protocol -/

/-- A parsed JSON value, the result of `json.loads` (floats are out of
scope of the claims; numbers are modelled as integers). -/
inductive JVal where
  | null
  | bool (b : Bool)
  | num (n : ℤ)
  | str (s : String)
  | arr (xs : List JVal)
  | obj (fs : List (String × JVal))

/-- String escaping used by `json.dumps` for the characters the protocol
can actually carry in device state (quote and backslash). -/
def jescape (s : String) : String :=
  String.mk (s.toList.flatMap fun c =>
    if c = '"' then ['\\', '"']
    else if c = '\\' then ['\\', '\\'] else [c])

mutual

/-- `json.dumps` with Python's default separators `", "` and `": "`. -/
def dumps : JVal → String
  | .null => "null"
  | .bool b => cond b "true" "false"
  | .num n => toString n
  | .str s => "\"" ++ jescape s ++ "\""
  | .arr xs => "[" ++ dumpsList xs ++ "]"
  | .obj fs => "\x7b" ++ dumpsObj fs ++ "\x7d"

/-- Comma-separated rendering of a JSON array's elements. -/
def dumpsList : List JVal → String
  | [] => ""
  | [v] => dumps v
  | v :: r1 :: r2 => dumps v ++ ", " ++ dumpsList (r1 :: r2)

/-- Comma-separated rendering of a JSON object's key/value pairs. -/
def dumpsObj : List (String × JVal) → String
  | [] => ""
  | [(k, v)] => "\"" ++ jescape k ++ "\": " ++ dumps v
  | (k, v) :: r1 :: r2 =>
    "\"" ++ jescape k ++ "\": " ++ dumps v ++ ", " ++ dumpsObj (r1 :: r2)

end

/-- A device held in the registry: mutable `state` plus the
`self_test_results` the `STR` command reports. -/
structure Device where
  state : JVal
  self_test_results : JVal

/-- The shared device registry, an insertion-ordered dict from device name
to device. -/
abbrev Devices := List (String × Device)

/-- Whether `needle` occurs at the head of `hay`. -/
def starts_with_chars : List Char → List Char → Bool
  | [], _ => true
  | _ :: _, [] => false
  | a :: n1, b :: h1 => a = b && starts_with_chars n1 h1

/-- Python substring test `needle in hay` on character lists. -/
def contains_chars (needle : List Char) : List Char → Bool
  | [] => needle.isEmpty
  | c :: rest => starts_with_chars needle (c :: rest) || contains_chars needle rest

/-- A length-prefixed frame as built by `CommandProtocol.send_device_state`:
`f"{len(y)}|{y}"` for `y = json.dumps(device_state)`. -/
def frame_of (y : String) : String :=
  toString y.length ++ "|" ++ y

/-- The frame `send_device_state` emits for one JSON-serializable state. -/
def send_device_state (st : JVal) : String :=
  frame_of (dumps st)

/-- The payload of `send_all_device_states`:
`[d.state for d in self.devices.values()]`. -/
def all_states (devices : Devices) : JVal :=
  .arr (devices.map fun p => p.2.state)

/-- Python `key in v` for a JSON value: key membership for a dict, element
membership for a list, substring test for a string; for the remaining
(non-iterable) values a `TypeError` is raised. -/
def jmem (key : String) : JVal → Except Unit Bool
  | .obj fs => .ok (fs.any fun p => p.1 = key)
  | .arr xs => .ok (xs.any fun x =>
      match x with
      | .str s => s = key
      | _ => false)
  | .str s => .ok (contains_chars key.toList s.toList)
  | _ => .error ()

/-- Python `v[key]` with a string key: a dict lookup (`KeyError` when the
key is absent); every other JSON value raises a `TypeError` on a string
index. -/
def jget (key : String) : JVal → Except Unit JVal
  | .obj fs =>
    match fs.find? (fun p => p.1 = key) with
    | some p => .ok p.2
    | none => .error ()
  | _ => .error ()

/-- Python `v in self.devices` for a parsed JSON value `v`: dict
membership hashes `v` and compares it with the string keys, so a string
matches a key, other hashable values (numbers, booleans, `None`) are
simply absent, and unhashable values (lists, dicts) raise a `TypeError`. -/
def jval_in_devices (v : JVal) (devices : Devices) : Except Unit Bool :=
  match v with
  | .str s => .ok (devices.any fun p => p.1 = s)
  | .obj _ => .error ()
  | .arr _ => .error ()
  | _ => .ok false

/-- Replacement of the named device's whole `state`
(`device.state = target_state` on the registry's device object). -/
def set_state (devices : Devices) (n : String) (st : JVal) : Devices :=
  devices.map fun p => if p.1 = n then (p.1, ⟨st, p.2.self_test_results⟩) else p

/-- Python `tokens[i]`: `IndexError` past the end. -/
def tok (tokens : List String) (i : ℕ) : Except Unit String :=
  match tokens.get? i with
  | some t => .ok t
  | none => .error ()

/-- `CommandProtocol.handle_get`: with a bare `GET` resend every state as
one array frame; with `GET|<name>` send that device's state alone when the
name is known, else do nothing. -/
def handle_get (devices : Devices) (tokens : List String) :
    Except Unit (Devices × List String) :=
  if tokens.length = 1 then
    .ok (devices, [send_device_state (all_states devices)])
  else
    match tok tokens 1 with
    | .error e => .error e
    | .ok device_name =>
      match devices.find? (fun p => p.1 = device_name) with
      | some p => .ok (devices, [send_device_state p.2.state])
      | none => .ok (devices, [])

/-- `CommandProtocol.handle_set`: parse `tokens[1]` as JSON; when the
result contains a `name` key whose value names a registered device,
replace that device's state wholesale and echo the new state as one
length-prefixed frame; otherwise change nothing.  Any Python exception
(missing token, parse failure, non-indexable value, unhashable name)
escapes to the caller.  `parse` stands for `json.loads`, an external
library function. -/
def handle_set (parse : String → Option JVal) (devices : Devices)
    (tokens : List String) : Except Unit (Devices × List String) :=
  match tok tokens 1 with
  | .error e => .error e
  | .ok t =>
    match parse t with
    | none => .error ()
    | some target_state =>
      match jmem "name" target_state with
      | .error e => .error e
      | .ok has_name =>
        if has_name then
          match jget "name" target_state with
          | .error e => .error e
          | .ok name_val =>
            match jval_in_devices name_val devices with
            | .error e => .error e
            | .ok known =>
              if known then
                match name_val with
                | .str n =>
                  .ok (set_state devices n target_state,
                    [send_device_state target_state])
                | _ => .error ()
              else
                .ok (devices, [])
        else
          .ok (devices, [])

/-- `CommandProtocol.handle_str`: exactly `STR|<name>` with a known name
sends the device's `self_test_results` as a bare (unprefixed) JSON line;
anything else does nothing. -/
def handle_str (devices : Devices) (tokens : List String) :
    Except Unit (Devices × List String) :=
  if tokens.length = 2 then
    match tok tokens 1 with
    | .error e => .error e
    | .ok device_name =>
      match devices.find? (fun p => p.1 = device_name) with
      | some p => .ok (devices, [dumps p.2.self_test_results])
      | none => .ok (devices, [])
  else
    .ok (devices, [])

/-- Python `line.split('|')` on the character list of the line: splitting
on every occurrence of the separator, never dropping empty parts, and
returning `[[]]` for the empty string. -/
def pysplit (sep : Char) : List Char → List (List Char)
  | [] => [[]]
  | c :: rest =>
    match pysplit sep rest with
    | [] => [[]]
    | t :: ts => if c = sep then [] :: t :: ts else (c :: t) :: ts

/-- The protocol's tokenization `line.decode().split('|')`. -/
def split_pipe (line : String) : List String :=
  (pysplit '|' line.toList).map String.mk

/-- `CommandProtocol.lineReceived`: tokenize, dispatch on the first token
(`Command[tokens[0]]`), and catch every exception (unknown commands raise
`KeyError` from the enum lookup; handler failures land in the generic
`except`), logging and leaving the registry and the wire untouched. -/
def lineReceived (parse : String → Option JVal) (devices : Devices)
    (line : String) : Devices × List String :=
  let tokens := split_pipe line
  let t0 := tokens.headD ""
  let r : Except Unit (Devices × List String) :=
    if t0 = "GET" then handle_get devices tokens
    else if t0 = "SET" then handle_set parse devices tokens
    else if t0 = "STR" then handle_str devices tokens
    else .error ()
  match r with
  | .ok res => res
  | .error _ => (devices, [])

/-- Observable actions of `CommandProtocol.connectionMade`: frames written
to the socket and registrations of this connection with a device's
external handler chain. -/
inductive ConnEvent where
  | frame (s : String)
  | register (device_name : String)
  deriving DecidableEq, Repr

/-- `CommandProtocol.connectionMade`: `send_all_device_states()` first,
then `h.accept(SocketHandler(self))` for the handler of each device (the
handler list is built from `devices.items()` in `__init__`). -/
def connectionMade (devices : Devices) : List ConnEvent :=
  ConnEvent.frame (send_device_state (all_states devices)) ::
    devices.map fun p => ConnEvent.register p.1

/-! ### Helper lemmas on the sample encoding -/

theorem length_ne_zero_of_ne_nil {α : Type} {l : List α} (h : l ≠ []) :
    l.length ≠ 0 := by
  simpa using h

/-- Evaluation of `add_value` on a nonempty sample list, in terms of
`drawn` and `to_bytes_be2`. -/
theorem add_value_eq (idx : ℕ) (samples : List ℚ) (bytes : List ℕ)
    (h : samples ≠ []) :
    add_value idx samples bytes =
      match to_bytes_be2 (convert_value (drawn samples idx)) with
      | some b => .ok (bytes ++ b, 0)
      | none => .ok (bytes ++ [0, 0], 1) := by
  unfold add_value drawn
  rw [if_neg (length_ne_zero_of_ne_nil h)]

/-- `add_value` on a nonempty sample list with an encodable drawn value:
append the 2-byte encoding, no diagnostic. -/
theorem add_value_ok_encodable (idx : ℕ) (samples : List ℚ) (bytes : List ℕ)
    (h : samples ≠ []) (he : Encodable16 (drawn samples idx)) :
    add_value idx samples bytes = .ok (bytes ++ enc2 (drawn samples idx), 0) := by
  unfold Encodable16 at he
  rw [add_value_eq idx samples bytes h]
  have hb : to_bytes_be2 (convert_value (drawn samples idx)) =
      some (enc2 (drawn samples idx)) := by
    unfold to_bytes_be2 enc2
    rw [if_pos he]
  rw [hb]

/-- `add_value` on a nonempty sample list with a non-encodable drawn value:
clamp to the encoding of `0` and count one diagnostic. -/
theorem add_value_overflow (idx : ℕ) (samples : List ℚ) (bytes : List ℕ)
    (h : samples ≠ []) (he : ¬ Encodable16 (drawn samples idx)) :
    add_value idx samples bytes = .ok (bytes ++ [0, 0], 1) := by
  unfold Encodable16 at he
  rw [add_value_eq idx samples bytes h]
  have hb : to_bytes_be2 (convert_value (drawn samples idx)) = none := by
    unfold to_bytes_be2
    rw [if_neg he]
  rw [hb]

/-- `add_value` on a nonempty sample list always succeeds and always
appends exactly two bytes. -/
theorem add_value_two_bytes (idx : ℕ) (samples : List ℚ) (bytes : List ℕ)
    (h : samples ≠ []) :
    ∃ b d, add_value idx samples bytes = .ok (bytes ++ b, d) ∧ b.length = 2 := by
  by_cases he : Encodable16 (drawn samples idx)
  · exact ⟨enc2 (drawn samples idx), 0, add_value_ok_encodable idx samples bytes h he, rfl⟩
  · exact ⟨[0, 0], 1, add_value_overflow idx samples bytes h he, rfl⟩

/-! ### C1: overflow clamping -/

/-- C1 counterexample: the claim says every sample with `|v| ≥ 1.0`
encodes to the clamped value 0 with a diagnostic.  At `v = 1` the code
encodes `32768` (bytes `[128, 0]`) with no diagnostic: `convert_value`
yields `32768`, which fits the unsigned 2-byte packing, so no
`OverflowError` is raised and no clamping happens. -/
theorem c1_counterexample :
    1 ≤ |(1 : ℚ)| ∧
    add_value 0 [(1 : ℚ)] [] = .ok ([128, 0], 0) ∧
    add_value 0 [(1 : ℚ)] [] ≠ .ok ([0, 0], 1) := by
  have hc : convert_value 1 = 32768 := by
    norm_num [convert_value, int_py]
  have h1 : add_value 0 [(1 : ℚ)] [] = .ok ([128, 0], 0) := by
    rw [add_value_eq 0 [(1 : ℚ)] [] (by simp)]
    have hd : drawn [(1 : ℚ)] 0 = 1 := rfl
    rw [hd, hc]
    rfl
  refine ⟨by norm_num, h1, ?_⟩
  rw [h1]
  simp

/-- C1 amended: clamping to 0 with a diagnostic happens exactly when the
converted code of the drawn sample falls outside `[0, 65536)` (the only
case in which `to_bytes(2, 'big')` raises `OverflowError`) — not for every
`|v| ≥ 1.0`; in every case the read appends exactly a 2-byte entry and no
exception escapes (given a nonempty waveform). -/
theorem c1_clamp_amended (idx : ℕ) (samples : List ℚ) (bytes : List ℕ)
    (h : samples ≠ []) :
    (¬ Encodable16 (drawn samples idx) →
      add_value idx samples bytes = .ok (bytes ++ [0, 0], 1)) ∧
    (Encodable16 (drawn samples idx) →
      add_value idx samples bytes = .ok (bytes ++ enc2 (drawn samples idx), 0)) ∧
    (∃ b d, add_value idx samples bytes = .ok (bytes ++ b, d) ∧ b.length = 2) := by
  exact ⟨fun he => add_value_overflow idx samples bytes h he,
    fun he => add_value_ok_encodable idx samples bytes h he,
    add_value_two_bytes idx samples bytes h⟩

/-- C1 witness: at `v = 3` (code `98304`, outside `[0, 65536)`) the entry
is clamped to `[0, 0]` with one diagnostic. -/
theorem c1_clamp_amended_witness :
    add_value 0 [(3 : ℚ)] [] = .ok ([0, 0], 1) := by
  have h := (c1_clamp_amended 0 [(3 : ℚ)] [] (by simp)).1
  have hd : drawn [(3 : ℚ)] 0 = 3 := rfl
  have hc : convert_value 3 = 98304 := by
    norm_num [convert_value, int_py]
  have hne : ¬ Encodable16 (drawn [(3 : ℚ)] 0) := by
    rw [Encodable16, hd, hc]
    norm_num
  simpa using h hne

/-! ### C2: the conversion rule -/

/-- C2 counterexample: the claim says the encoder computes
`round(v * 32768)`.  Python `int()` truncates instead: at
`v = 9/327680` (so `v * 32768 = 9/10`) the code yields `0` while the
spec's rounding rule yields `1`. -/
theorem c2_counterexample :
    convert_value (9 / 327680) = 0 ∧
    convert_value_spec (9 / 327680) = 1 ∧
    convert_value (9 / 327680) ≠ convert_value_spec (9 / 327680) := by
  have h1 : convert_value (9 / 327680) = 0 := by
    norm_num [convert_value, int_py]
  have h2 : convert_value_spec (9 / 327680) = 1 := by
    norm_num [convert_value_spec, round_eq]
  exact ⟨h1, h2, by rw [h1, h2]; decide⟩

/-- C2 amended: the encoder computes `int(v * 32768)` — truncation toward
zero, i.e. the floor for `v ≥ 0` and the ceiling for `v < 0` — not
`round`; a negative truncated code wraps as `65536 +` code, while a
negative `v` whose truncated code is `0` (e.g. `-1/65536`) encodes as `0`
without wrapping. -/
theorem c2_truncation_amended (v : ℚ) :
    (0 ≤ v → convert_value v = ⌊v * 32768⌋) ∧
    (v < 0 → convert_value v =
      if ⌈v * 32768⌉ < 0 then 65536 + ⌈v * 32768⌉ else 0) := by
  constructor
  · intro hv
    have hx : 0 ≤ v * 32768 := by positivity
    have hi : int_py (v * 32768) = ⌊v * 32768⌋ := by
      unfold int_py
      rw [if_pos hx]
    unfold convert_value
    rw [hi, if_pos (Int.floor_nonneg.mpr hx)]
  · intro hv
    have hx : v * 32768 < 0 := by
      have : (0 : ℚ) < 32768 := by norm_num
      exact mul_neg_of_neg_of_pos hv this
    have hi : int_py (v * 32768) = ⌈v * 32768⌉ := by
      unfold int_py
      rw [if_neg (not_le.mpr hx), Int.floor_neg, neg_neg]
    unfold convert_value
    rw [hi]
    by_cases hc : ⌈v * 32768⌉ < 0
    · rw [if_neg (not_le.mpr hc), if_pos hc]
    · have h0 : ⌈v * 32768⌉ ≤ 0 := Int.ceil_le.mpr (by exact_mod_cast hx.le)
      have he : ⌈v * 32768⌉ = 0 := le_antisymm h0 (not_lt.mp hc)
      rw [he]
      simp

/-- C2 witness: the amended rule at `v = 1` gives `⌊32768⌋ = 32768`. -/
theorem c2_truncation_amended_witness : convert_value 1 = 32768 := by
  rw [(c2_truncation_amended 1).1 (by decide)]
  simp

/-! ### C3: round trip within one LSB -/

/-- C3: for `|v| < 1` the decoded value of the encoded sample is within
`1/32768` of `v`: the encoder truncates `v * 32768` to an integer `i`
with `|i - v * 32768| < 1`, the wrap keeps the code in `[0, 65536)`, and
decoding recovers `i / 32768`. -/
theorem c3_roundtrip (v : ℚ) (hv : |v| < 1) :
    |decode (convert_value v) - v| ≤ 1 / 32768 := by
  have hxlt : v * 32768 < 32768 := by
    nlinarith [abs_lt.mp hv]
  have hxgt : -32768 < v * 32768 := by
    nlinarith [abs_lt.mp hv]
  have key : |(int_py (v * 32768) : ℚ) - v * 32768| < 1 ∧
      decode (convert_value v) = (int_py (v * 32768) : ℚ) / 32768 := by
    by_cases hx0 : 0 ≤ v * 32768
    · have hi : int_py (v * 32768) = ⌊v * 32768⌋ := by
        unfold int_py
        rw [if_pos hx0]
      have hle : ((⌊v * 32768⌋ : ℤ) : ℚ) ≤ v * 32768 := Int.floor_le _
      have hgt : v * 32768 < (⌊v * 32768⌋ : ℚ) + 1 := Int.lt_floor_add_one _
      have hinn : 0 ≤ ⌊v * 32768⌋ := Int.floor_nonneg.mpr hx0
      have hilt : ⌊v * 32768⌋ < 32768 := Int.floor_lt.mpr (by push_cast; linarith)
      have hcv : convert_value v = ⌊v * 32768⌋ := by
        unfold convert_value
        rw [hi, if_pos hinn]
      constructor
      · rw [hi, abs_sub_lt_iff]
        constructor <;> linarith
      · rw [hcv, hi]
        unfold decode
        rw [if_pos hilt]
    · push_neg at hx0
      have hi : int_py (v * 32768) = -⌊-(v * 32768)⌋ := by
        unfold int_py
        rw [if_neg (not_le.mpr hx0)]
      have hfl : ((⌊-(v * 32768)⌋ : ℤ) : ℚ) ≤ -(v * 32768) := Int.floor_le _
      have hfg : -(v * 32768) < (⌊-(v * 32768)⌋ : ℚ) + 1 := Int.lt_floor_add_one _
      have hfnn : 0 ≤ ⌊-(v * 32768)⌋ := Int.floor_nonneg.mpr (by linarith)
      have hflt : ⌊-(v * 32768)⌋ < 32768 := Int.floor_lt.mpr (by push_cast; linarith)
      have hdist : |((-⌊-(v * 32768)⌋ : ℤ) : ℚ) - v * 32768| < 1 := by
        rw [abs_sub_lt_iff]
        push_cast
        constructor <;> linarith
      refine ⟨by rw [hi]; exact hdist, ?_⟩
      by_cases hiz : ⌊-(v * 32768)⌋ = 0
      · have hcv : convert_value v = 0 := by
          unfold convert_value
          rw [hi, hiz]
          simp
        rw [hcv, hi, hiz]
        unfold decode
        norm_num
      · have hipos : 0 < ⌊-(v * 32768)⌋ := lt_of_le_of_ne hfnn (Ne.symm hiz)
        have hcv : convert_value v = 65536 + -⌊-(v * 32768)⌋ := by
          unfold convert_value
          rw [hi, if_neg (by omega)]
        rw [hcv, hi]
        unfold decode
        rw [if_neg (by omega)]
        congr 1
        push_cast
        ring
  obtain ⟨hdist, hdec⟩ := key
  rw [hdec]
  have hrw : (int_py (v * 32768) : ℚ) / 32768 - v =
      ((int_py (v * 32768) : ℚ) - v * 32768) / 32768 := by
    field_simp
    ring
  rw [hrw, abs_div]
  have h32 : |(32768 : ℚ)| = 32768 := by norm_num
  rw [h32]
  rw [div_le_div_iff₀ (by norm_num) (by norm_num)]
  nlinarith [hdist]

/-- C3 witness: the round trip at `v = 0` is within one LSB. -/
theorem c3_roundtrip_witness : |decode (convert_value 0) - 0| ≤ 1 / 32768 :=
  c3_roundtrip 0 (by norm_num)

/-! ### Helper lemmas on the FIFO loop -/

/-- One iteration of the FIFO loop with all three drawn values encodable:
append the three 2-byte encodings in x, y, z order and advance the cursor. -/
theorem fifo_loop_step (sx sy sz : List ℚ) (hx : sx ≠ []) (hy : sy ≠ [])
    (hz : sz ≠ []) (i n : ℕ) (bytes : List ℕ) (diags : ℕ)
    (hex : Encodable16 (drawn sx i)) (hey : Encodable16 (drawn sy i))
    (hez : Encodable16 (drawn sz i)) :
    fifo_loop sx sy sz i (n + 1) bytes diags =
      fifo_loop sx sy sz (i + 1) n
        (bytes ++ enc2 (drawn sx i) ++ enc2 (drawn sy i) ++ enc2 (drawn sz i))
        diags := by
  rw [fifo_loop, add_value_ok_encodable i sx bytes hx hex]
  dsimp only
  rw [add_value_ok_encodable i sy (bytes ++ enc2 (drawn sx i)) hy hey]
  dsimp only
  rw [add_value_ok_encodable i sz (bytes ++ enc2 (drawn sx i) ++ enc2 (drawn sy i)) hz hez]
  dsimp only
  norm_num

/-- The FIFO loop with nonempty sample lists always succeeds; it emits
exactly `6 * n` bytes and advances the cursor by `n`. -/
theorem fifo_loop_ok (sx sy sz : List ℚ) (hx : sx ≠ []) (hy : sy ≠ [])
    (hz : sz ≠ []) (n : ℕ) :
    ∀ (idx : ℕ) (bytes : List ℕ) (diags : ℕ),
    ∃ bs d, fifo_loop sx sy sz idx n bytes diags = .ok (bs, idx + n, d) ∧
      bs.length = bytes.length + 6 * n := by
  induction n with
  | zero =>
    intro idx bytes diags
    exact ⟨bytes, diags, rfl, by simp⟩
  | succ n ih =>
    intro idx bytes diags
    obtain ⟨b1, d1, h1, hl1⟩ := add_value_two_bytes idx sx bytes hx
    obtain ⟨b2, d2, h2, hl2⟩ := add_value_two_bytes idx sy (bytes ++ b1) hy
    obtain ⟨b3, d3, h3, hl3⟩ := add_value_two_bytes idx sz (bytes ++ b1 ++ b2) hz
    obtain ⟨bs, d, hr, hlen⟩ := ih (idx + 1) (bytes ++ b1 ++ b2 ++ b3)
      (diags + d1 + d2 + d3)
    refine ⟨bs, d, ?_, ?_⟩
    · rw [fifo_loop, h1]
      dsimp only
      rw [h2]
      dsimp only
      rw [h3]
      dsimp only
      have hidx : idx + (n + 1) = idx + 1 + n := by omega
      rw [hidx]
      exact hr
    · rw [hlen]
      simp [hl1, hl2, hl3]
      omega

/-- Evaluation of `provide` at the FIFO data register with a length. -/
theorem provide_fifo_eq (p : MockIoDataProvider) (len : ℕ) :
    provide p MPU6050_RA_FIFO_R_W (some len) =
      match fifo_loop p.x p.y p.z p.idx (len / 6) [] 0 with
      | .ok (bytes, idx2, diags) => .ok (.block bytes, ⟨idx2, p.x, p.y, p.z⟩, diags)
      | .error e => .error e := by
  unfold provide
  rw [if_neg (by decide), if_neg (by decide), if_pos rfl]

/-- The zero sample converts to code 0. -/
theorem convert_value_zero : convert_value 0 = 0 := by
  norm_num [convert_value, int_py]

/-- Drawing from the one-element zero waveform always yields 0. -/
theorem drawn_single_zero (i : ℕ) : drawn [(0 : ℚ)] i = 0 := by
  unfold drawn
  simp

/-- The zero sample is encodable. -/
theorem encodable_zero : Encodable16 (0 : ℚ) := by
  unfold Encodable16
  rw [convert_value_zero]
  norm_num

/-- The 2-byte encoding of the zero sample. -/
theorem enc2_zero : enc2 (0 : ℚ) = [0, 0] := by
  unfold enc2
  rw [convert_value_zero]
  rfl

/-! ### C5: block reads and requested length -/

/-- C5 counterexample: the claim says the FIFO-data branch returns exactly
the requested number of bytes for any length.  Asked for 7 bytes over the
all-zero waveform it returns 6 (`7 // 6 = 1` sample set of 6 bytes). -/
theorem c5_counterexample :
    provide ⟨0, [(0 : ℚ)], [0], [0]⟩ MPU6050_RA_FIFO_R_W (some 7) =
      .ok (.block [0, 0, 0, 0, 0, 0], ⟨1, [(0 : ℚ)], [0], [0]⟩, 0) ∧
    ([0, 0, 0, 0, 0, 0] : List ℕ).length ≠ 7 := by
  constructor
  · rw [provide_fifo_eq]
    dsimp only
    have h76 : (7 : ℕ) / 6 = 1 := by norm_num
    rw [h76]
    rw [fifo_loop_step [0] [0] [0] (by simp) (by simp) (by simp) 0 0 [] 0
      (by simpa [drawn_single_zero] using encodable_zero)
      (by simpa [drawn_single_zero] using encodable_zero)
      (by simpa [drawn_single_zero] using encodable_zero)]
    dsimp only [fifo_loop]
    simp [drawn_single_zero, enc2_zero]
  · decide

/-- C5 amended: the FIFO-data branch emits `6 * (length // 6)` bytes and
advances the cursor by `length // 6`; this equals the requested length
exactly when the length is a multiple of 6 (the general `read_block`
contract gives no length guarantee at all — the value comes from the
provider or the seeded queue unchanged). -/
theorem c5_block_length_amended (p : MockIoDataProvider) (len : ℕ)
    (hx : p.x ≠ []) (hy : p.y ≠ []) (hz : p.z ≠ []) :
    ∃ bs d, provide p MPU6050_RA_FIFO_R_W (some len) =
      .ok (.block bs, ⟨p.idx + len / 6, p.x, p.y, p.z⟩, d) ∧
      bs.length = 6 * (len / 6) ∧ (bs.length = len ↔ len % 6 = 0) := by
  obtain ⟨bs, d, hr, hlen⟩ := fifo_loop_ok p.x p.y p.z hx hy hz (len / 6) p.idx [] 0
  have hlen6 : bs.length = 6 * (len / 6) := by simpa using hlen
  refine ⟨bs, d, ?_, hlen6, ?_⟩
  · rw [provide_fifo_eq, hr]
  · rw [hlen6]
    omega

/-- C5 witness: at requested length 7 over the all-zero waveform the block
has 6 bytes. -/
theorem c5_block_length_amended_witness :
    ∃ bs d, provide ⟨0, [(0 : ℚ)], [0], [0]⟩ MPU6050_RA_FIFO_R_W (some 7) =
      .ok (.block bs, ⟨1, [(0 : ℚ)], [0], [0]⟩, d) ∧ bs.length = 6 := by
  obtain ⟨bs, d, hr, hlen, _⟩ := c5_block_length_amended ⟨0, [0], [0], [0]⟩ 7
    (by simp) (by simp) (by simp)
  exact ⟨bs, d, by simpa using hr, by simpa using hlen⟩

/-! ### C6: the 18-byte FIFO read -/

/-- C6: a FIFO-data read of length 18 with every drawn value encodable
returns exactly 3 consecutive x,y,z sample sets (18 bytes) drawn at
cursor positions `idx`, `idx+1`, `idx+2` (each modulo its waveform
length), with no diagnostics, and advances the cursor by exactly 3. -/
theorem c6_fifo_read_18 (p : MockIoDataProvider) (hx : p.x ≠ [])
    (hy : p.y ≠ []) (hz : p.z ≠ [])
    (he : ∀ j, j < 3 → Encodable16 (drawn p.x (p.idx + j)) ∧
      Encodable16 (drawn p.y (p.idx + j)) ∧ Encodable16 (drawn p.z (p.idx + j))) :
    provide p MPU6050_RA_FIFO_R_W (some 18) =
      .ok (.block (sampleSet p p.idx ++ sampleSet p (p.idx + 1) ++
          sampleSet p (p.idx + 2)), ⟨p.idx + 3, p.x, p.y, p.z⟩, 0) ∧
    (sampleSet p p.idx ++ sampleSet p (p.idx + 1) ++
      sampleSet p (p.idx + 2)).length = 18 := by
  obtain ⟨ex0, ey0, ez0⟩ := he 0 (by omega)
  obtain ⟨ex1, ey1, ez1⟩ := he 1 (by omega)
  obtain ⟨ex2, ey2, ez2⟩ := he 2 (by omega)
  rw [Nat.add_zero] at ex0 ey0 ez0
  constructor
  · rw [provide_fifo_eq]
    have h186 : (18 : ℕ) / 6 = 3 := by norm_num
    rw [h186]
    rw [fifo_loop_step p.x p.y p.z hx hy hz p.idx 2 [] 0 ex0 ey0 ez0]
    rw [fifo_loop_step p.x p.y p.z hx hy hz (p.idx + 1) 1 _ 0 ex1 ey1 ez1]
    have h11 : p.idx + 1 + 1 = p.idx + 2 := by omega
    rw [h11]
    rw [fifo_loop_step p.x p.y p.z hx hy hz (p.idx + 2) 0 _ 0 ex2 ey2 ez2]
    have h21 : p.idx + 2 + 1 = p.idx + 3 := by omega
    rw [h21]
    dsimp only [fifo_loop]
    simp [sampleSet, List.append_assoc]
  · simp [sampleSet, enc2]

/-- C6 witness: the 18-byte read over the all-zero waveform returns 18
zero bytes and advances the cursor from 0 to 3. -/
theorem c6_fifo_read_18_witness :
    provide ⟨0, [(0 : ℚ)], [0], [0]⟩ MPU6050_RA_FIFO_R_W (some 18) =
      .ok (.block [0, 0, 0, 0, 0, 0, 0, 0, 0, 0, 0, 0, 0, 0, 0, 0, 0, 0],
        ⟨3, [(0 : ℚ)], [0], [0]⟩, 0) := by
  have h := (c6_fifo_read_18 ⟨0, [0], [0], [0]⟩ (by simp) (by simp) (by simp)
    (fun j hj => ⟨by simpa [drawn_single_zero] using encodable_zero,
      by simpa [drawn_single_zero] using encodable_zero,
      by simpa [drawn_single_zero] using encodable_zero⟩)).1
  simpa [sampleSet, drawn_single_zero, enc2_zero] using h

/-! ### C7: provider first, queue second, exhausted last -/

/-- C7: for both `read` and `read_block` on the recording transport: a
configured data provider returning a non-`None` value answers the call
with the transport unchanged; when the provider is absent or returns
`None`, the next value is popped from the front of the pre-seeded queue;
and when additionally the queue is empty, the call raises the exhausted
condition (`queue.Empty`) to the caller instead of blocking or returning
a default. -/
theorem c7_transport_fallback {α : Type} (io : mockIO α) (addr reg len : ℕ) :
    (∀ dp r, io.data_provider = some dp → dp reg (some len) = some r →
      io.read_block addr reg len = .ok (r, io)) ∧
    (∀ dp r, io.data_provider = some dp → dp reg none = some r →
      io.read addr reg = .ok (r, io)) ∧
    ((io.data_provider = none ∨
        ∃ dp, io.data_provider = some dp ∧ dp reg (some len) = none) →
      (∀ v rest, io.vals_to_read = v :: rest →
        io.read_block addr reg len =
          .ok (v, ⟨io.values_written, io.data_provider, rest⟩)) ∧
      (io.vals_to_read = [] → io.read_block addr reg len = .error ())) ∧
    ((io.data_provider = none ∨
        ∃ dp, io.data_provider = some dp ∧ dp reg none = none) →
      (∀ v rest, io.vals_to_read = v :: rest →
        io.read addr reg =
          .ok (v, ⟨io.values_written, io.data_provider, rest⟩)) ∧
      (io.vals_to_read = [] → io.read addr reg = .error ())) := by
  refine ⟨?_, ?_, ?_, ?_⟩
  · intro dp r hdp hr
    unfold mockIO.read_block
    rw [hdp]
    dsimp only
    rw [hr]
  · intro dp r hdp hr
    unfold mockIO.read
    rw [hdp]
    dsimp only
    rw [hr]
  · intro hcase
    constructor
    · intro v rest hq
      unfold mockIO.read_block
      rcases hcase with hnone | ⟨dp, hdp, hdpn⟩
      · rw [hnone]
        dsimp only
        unfold get_nowait
        rw [hq]
        dsimp only
        rw [hnone]
      · rw [hdp]
        dsimp only
        rw [hdpn]
        dsimp only
        unfold get_nowait
        rw [hq]
        dsimp only
        rw [hdp]
    · intro hq
      unfold mockIO.read_block
      rcases hcase with hnone | ⟨dp, hdp, hdpn⟩
      · rw [hnone]
        dsimp only
        unfold get_nowait
        rw [hq]
      · rw [hdp]
        dsimp only
        rw [hdpn]
        dsimp only
        unfold get_nowait
        rw [hq]
  · intro hcase
    constructor
    · intro v rest hq
      unfold mockIO.read
      rcases hcase with hnone | ⟨dp, hdp, hdpn⟩
      · rw [hnone]
        dsimp only
        unfold get_nowait
        rw [hq]
        dsimp only
        rw [hnone]
      · rw [hdp]
        dsimp only
        rw [hdpn]
        dsimp only
        unfold get_nowait
        rw [hq]
        dsimp only
        rw [hdp]
    · intro hq
      unfold mockIO.read
      rcases hcase with hnone | ⟨dp, hdp, hdpn⟩
      · rw [hnone]
        dsimp only
        unfold get_nowait
        rw [hq]
      · rw [hdp]
        dsimp only
        rw [hdpn]
        dsimp only
        unfold get_nowait
        rw [hq]

/-- C7 witness: with no provider, a seeded queue answers front-first, and
an empty queue raises the exhausted condition. -/
theorem c7_transport_fallback_witness :
    mockIO.read_block (⟨[], none, [5, 7]⟩ : mockIO ℕ) 0 0 4 =
      .ok (5, ⟨[], none, [7]⟩) ∧
    mockIO.read_block (⟨[], none, ([] : List ℕ)⟩ : mockIO ℕ) 0 0 4 =
      .error () := by
  constructor
  · exact ((c7_transport_fallback ⟨[], none, [5, 7]⟩ 0 0 4).2.2.1
      (Or.inl rfl)).1 5 [7] rfl
  · exact ((c7_transport_fallback ⟨[], none, []⟩ 0 0 4).2.2.1
      (Or.inl rfl)).2 rfl

/-! ### Helper lemmas on the command protocol -/

/-- Rebuilding a string from its character list is the identity. -/
theorem mk_toList (s : String) : String.mk s.toList = s := rfl

/-- Dispatch of a line whose first token is `SET`. -/
theorem lineReceived_set (parse : String → Option JVal) (devices : Devices)
    (line : String) (rest : List String)
    (hline : split_pipe line = "SET" :: rest) :
    lineReceived parse devices line =
      match handle_set parse devices ("SET" :: rest) with
      | .ok res => res
      | .error _ => (devices, []) := by
  unfold lineReceived
  rw [hline]
  dsimp only [List.headD]
  rw [if_neg (by decide), if_pos rfl]

/-- Dispatch of a line whose first token is `GET`. -/
theorem lineReceived_get (parse : String → Option JVal) (devices : Devices)
    (line : String) (rest : List String)
    (hline : split_pipe line = "GET" :: rest) :
    lineReceived parse devices line =
      match handle_get devices ("GET" :: rest) with
      | .ok res => res
      | .error _ => (devices, []) := by
  unfold lineReceived
  rw [hline]
  dsimp only [List.headD]
  rw [if_pos rfl]

/-- `handle_set` reads nothing but token 1 of the token list. -/
theorem handle_set_only_token1 (parse : String → Option JVal)
    (devices : Devices) (t1 t2 : List String) (h : tok t1 1 = tok t2 1) :
    handle_set parse devices t1 = handle_set parse devices t2 := by
  unfold handle_set
  rw [h]

/-- `handle_get` on a token list that is not a bare `GET` reads nothing
but token 1. -/
theorem handle_get_of_ne_one (devices : Devices) (t : List String)
    (h : ¬ t.length = 1) :
    handle_get devices t =
      match tok t 1 with
      | .error e => .error e
      | .ok device_name =>
        match devices.find? (fun p => p.1 = device_name) with
        | some p => .ok (devices, [send_device_state p.2.state])
        | none => .ok (devices, []) := by
  unfold handle_get
  rw [if_neg h]

/-! ### C8: unknown commands are ignored -/

/-- C8: a line whose first pipe-delimited token is none of `GET`, `SET`,
`STR` makes the enum lookup raise `KeyError`, which `lineReceived`
catches and logs: no reply frame is emitted and the registry is
unchanged (and no disconnect is triggered — the handler never closes the
transport). -/
theorem c8_unknown_command_ignored (parse : String → Option JVal)
    (devices : Devices) (line : String)
    (h1 : (split_pipe line).headD "" ≠ "GET")
    (h2 : (split_pipe line).headD "" ≠ "SET")
    (h3 : (split_pipe line).headD "" ≠ "STR") :
    lineReceived parse devices line = (devices, []) := by
  unfold lineReceived
  dsimp only
  rw [if_neg h1, if_neg h2, if_neg h3]

/-- C8 witness: the line `PUT|x` is ignored. -/
theorem c8_unknown_command_ignored_witness :
    lineReceived (fun _ => none) [("a", ⟨JVal.null, JVal.null⟩)] "PUT|x" =
      ([("a", ⟨JVal.null, JVal.null⟩)], []) :=
  c8_unknown_command_ignored (fun _ => none) [("a", ⟨JVal.null, JVal.null⟩)]
    "PUT|x" (by decide) (by decide) (by decide)

/-! ### C9: the connect-time state push -/

/-- C9: on a fresh connection the very first emitted event is the single
length-prefixed frame whose JSON payload is the array of every
registered device's state, and everything after it is the registration
of the connection with the device handler chains (no other frame). -/
theorem c9_connect_pushes_states (devices : Devices) :
    connectionMade devices =
      ConnEvent.frame (frame_of (dumps (JVal.arr (devices.map fun p => p.2.state)))) ::
        devices.map (fun p => ConnEvent.register p.1) ∧
    (connectionMade devices).head? =
      some (ConnEvent.frame (frame_of (dumps (all_states devices)))) ∧
    ∀ e ∈ (connectionMade devices).tail, ∃ n, e = ConnEvent.register n := by
  refine ⟨rfl, rfl, ?_⟩
  intro e he
  simp only [connectionMade, List.tail_cons, List.mem_map] at he
  obtain ⟨p, _, hp⟩ := he
  exact ⟨p.1, hp.symm⟩

/-- C9 witness: a one-device registry pushes `3|[1]` first, then the one
registration. -/
theorem c9_connect_pushes_states_witness :
    connectionMade [("a", ⟨JVal.num 1, JVal.null⟩)] =
      [ConnEvent.frame "3|[1]", ConnEvent.register "a"] := by
  have h := (c9_connect_pushes_states [("a", ⟨JVal.num 1, JVal.null⟩)]).1
  simpa using h

/-! ### C4: SET semantics -/

/-- C4: a `SET` line whose argument parses as a JSON mapping: when the
mapping has a `name` entry naming a registered device, that device's
whole state is replaced by the mapping (no merge) and exactly one
length-prefixed frame echoing the new state is sent; when the mapping has
no `name` entry, or its `name` names no registered device, every device
is unchanged and no frame is sent. -/
theorem c4_set_replaces_state (parse : String → Option JVal)
    (devices : Devices) (line arg : String) (m : List (String × JVal))
    (hline : split_pipe line = ["SET", arg])
    (hparse : parse arg = some (JVal.obj m)) :
    (∀ n, m.find? (fun p => p.1 = "name") = some ("name", JVal.str n) →
      (devices.any fun p => p.1 = n) = true →
      lineReceived parse devices line =
        (set_state devices n (JVal.obj m), [send_device_state (JVal.obj m)])) ∧
    ((m.any fun p => p.1 = "name") = false →
      lineReceived parse devices line = (devices, [])) ∧
    (∀ n, m.find? (fun p => p.1 = "name") = some ("name", JVal.str n) →
      (devices.any fun p => p.1 = n) = false →
      lineReceived parse devices line = (devices, [])) := by
  have hdisp := lineReceived_set parse devices line [arg] hline
  refine ⟨?_, ?_, ?_⟩
  · intro n hfind hknown
    rw [hdisp]
    have hany : (m.any fun p => p.1 = "name") = true :=
      List.any_eq_true.mpr ⟨("name", JVal.str n),
        List.mem_of_find?_eq_some hfind, by simp⟩
    unfold handle_set
    dsimp only [tok, List.get?]
    rw [hparse]
    dsimp only [jmem]
    rw [hany]
    dsimp only [jget]
    rw [hfind]
    dsimp only [jval_in_devices]
    rw [hknown]
    rfl
  · intro hany
    rw [hdisp]
    unfold handle_set
    dsimp only [tok, List.get?]
    rw [hparse]
    dsimp only [jmem]
    rw [hany]
    rfl
  · intro n hfind hunknown
    rw [hdisp]
    have hany : (m.any fun p => p.1 = "name") = true :=
      List.any_eq_true.mpr ⟨("name", JVal.str n),
        List.mem_of_find?_eq_some hfind, by simp⟩
    unfold handle_set
    dsimp only [tok, List.get?]
    rw [hparse]
    dsimp only [jmem]
    rw [hany]
    dsimp only [jget]
    rw [hfind]
    dsimp only [jval_in_devices]
    rw [hunknown]
    rfl

/-- C4 witness: `SET|N` with a parse table mapping `N` to
`{"name": "a", "rate": 200}` on a registry holding device `a` replaces
`a`'s state wholesale and echoes the state as the frame
`26|{"name": "a", "rate": 200}`. -/
theorem c4_set_replaces_state_witness :
    lineReceived
      (fun s => if s = "N" then
        some (JVal.obj [("name", JVal.str "a"), ("rate", JVal.num 200)])
        else none)
      [("a", ⟨JVal.num 1, JVal.null⟩)] "SET|N" =
    ([("a", ⟨JVal.obj [("name", JVal.str "a"), ("rate", JVal.num 200)],
        JVal.null⟩)],
      ["26|\x7b\"name\": \"a\", \"rate\": 200\x7d"]) := by
  rw [(c4_set_replaces_state
    (fun s => if s = "N" then
      some (JVal.obj [("name", JVal.str "a"), ("rate", JVal.num 200)])
      else none)
    [("a", ⟨JVal.num 1, JVal.null⟩)] "SET|N" "N"
    [("name", JVal.str "a"), ("rate", JVal.num 200)] rfl rfl).1 "a" rfl rfl]
  rfl

/-! ### Helper lemmas on tokenization -/

/-- `pysplit` never returns an empty list of parts. -/
theorem pysplit_ne_nil (sep : Char) (l : List Char) : pysplit sep l ≠ [] := by
  cases l with
  | nil => simp [pysplit]
  | cons c rest =>
    unfold pysplit
    cases h : pysplit sep rest with
    | nil => simp
    | cons t ts =>
      by_cases hc : c = sep <;> simp [hc]

/-- Splitting a separator-free list yields that list alone. -/
theorem pysplit_no_sep (sep : Char) (l : List Char) (h : sep ∉ l) :
    pysplit sep l = [l] := by
  induction l with
  | nil => rfl
  | cons c rest ih =>
    rw [List.mem_cons] at h
    push_neg at h
    obtain ⟨h1, h2⟩ := h
    have hc : ¬ c = sep := fun hce => h1 hce.symm
    rw [pysplit, ih h2]
    simp [hc]

/-- Splitting cuts at the first separator occurrence: a separator-free
prefix becomes the first part. -/
theorem pysplit_append (sep : Char) (l1 l2 : List Char) (h : sep ∉ l1) :
    pysplit sep (l1 ++ sep :: l2) = l1 :: pysplit sep l2 := by
  induction l1 with
  | nil =>
    simp only [List.nil_append]
    cases hp : pysplit sep l2 with
    | nil => exact absurd hp (pysplit_ne_nil sep l2)
    | cons t ts =>
      rw [pysplit]
      rw [hp]
      simp
  | cons c rest ih =>
    rw [List.mem_cons] at h
    push_neg at h
    obtain ⟨h1, h2⟩ := h
    have hc : ¬ c = sep := fun hce => h1 hce.symm
    simp only [List.cons_append]
    rw [pysplit, ih h2]
    simp [hc]

/-- A list containing the separator decomposes as its separator-free
`takeWhile` prefix, the first separator, and a remainder. -/
theorem takeWhile_decomp (sep : Char) (l : List Char) (h : sep ∈ l) :
    ∃ r, l = l.takeWhile (fun c => c != sep) ++ sep :: r := by
  induction l with
  | nil => cases h
  | cons c rest ih =>
    by_cases hc : c = sep
    · subst hc
      exact ⟨rest, by simp [List.takeWhile_cons]⟩
    · have hmem : sep ∈ rest := by
        rcases List.mem_cons.mp h with he | hm
        · exact absurd he.symm hc
        · exact hm
      obtain ⟨r, hr⟩ := ih hmem
      refine ⟨r, ?_⟩
      rw [List.takeWhile_cons]
      have hb : (c != sep) = true := by simpa using hc
      rw [hb]
      simp only [if_true]
      rw [List.cons_append]
      exact congrArg (c :: ·) hr

/-- The separator never occurs in the separator-free prefix. -/
theorem not_mem_takeWhile_sep (sep : Char) (l : List Char) :
    sep ∉ l.takeWhile (fun c => c != sep) := by
  intro hm
  have := List.mem_takeWhile_imp hm
  simp at this

/-! ### C10: pipes inside a SET payload -/

/-- C10: the protocol splits the entire line on `|` before dispatching,
so the argument handed to the SET JSON parser is exactly the text between
the line's first and second `|`: for a payload containing a `|`, token 1
is the payload's proper prefix before its first `|` (never the payload
itself), `SET` behaves exactly as if that truncated prefix were the whole
payload, and both `SET` and `GET` ignore any tokens after a second `|`. -/
theorem c10_payload_pipe_truncated (parse : String → Option JVal)
    (devices : Devices) (p : String) (hp : ('|' : Char) ∈ p.toList) :
    (split_pipe ("SET|" ++ p)).get? 1 =
      some (String.mk (p.toList.takeWhile (fun c => c != '|'))) ∧
    String.mk (p.toList.takeWhile (fun c => c != '|')) ≠ p ∧
    lineReceived parse devices ("SET|" ++ p) =
      lineReceived parse devices
        ("SET|" ++ String.mk (p.toList.takeWhile (fun c => c != '|'))) ∧
    (∀ n junk : String, ('|' : Char) ∉ n.toList →
      lineReceived parse devices ("GET|" ++ n ++ "|" ++ junk) =
        lineReceived parse devices ("GET|" ++ n)) := by
  obtain ⟨r, hr⟩ := takeWhile_decomp '|' p.toList hp
  have hqs : ('|' : Char) ∉ p.toList.takeWhile (fun c => c != '|') :=
    not_mem_takeWhile_sep '|' p.toList
  generalize hq : p.toList.takeWhile (fun c => c != '|') = q at hr hqs ⊢
  have htoks : split_pipe ("SET|" ++ p) =
      "SET" :: String.mk q :: (pysplit '|' r).map String.mk := by
    unfold split_pipe
    have hdata : ("SET|" ++ p).toList = ['S', 'E', 'T'] ++ '|' :: p.toList := by
      simp [String.toList, String.data_append]
    rw [hdata, hr, pysplit_append '|' ['S', 'E', 'T'] (q ++ '|' :: r) (by decide),
      pysplit_append '|' q r hqs]
    rfl
  have htoks2 : split_pipe ("SET|" ++ String.mk q) = ["SET", String.mk q] := by
    unfold split_pipe
    have hdata : ("SET|" ++ String.mk q).toList = ['S', 'E', 'T'] ++ '|' :: q := by
      simp [String.toList, String.data_append]
    rw [hdata, pysplit_append '|' ['S', 'E', 'T'] q (by decide),
      pysplit_no_sep '|' q hqs]
    rfl
  refine ⟨?_, ?_, ?_, ?_⟩
  · rw [htoks]
    rfl
  · intro he
    have h2 : q = p.toList := congrArg String.toList he
    rw [h2] at hqs
    exact hqs hp
  · rw [lineReceived_set parse devices ("SET|" ++ p)
      (String.mk q :: (pysplit '|' r).map String.mk) htoks,
      lineReceived_set parse devices ("SET|" ++ String.mk q) [String.mk q] htoks2,
      handle_set_only_token1 parse devices
        ("SET" :: String.mk q :: (pysplit '|' r).map String.mk)
        ["SET", String.mk q] rfl]
  · intro n junk hn
    have htg1 : split_pipe ("GET|" ++ n ++ "|" ++ junk) =
        "GET" :: n :: (pysplit '|' junk.toList).map String.mk := by
      unfold split_pipe
      have hdata : ("GET|" ++ n ++ "|" ++ junk).toList =
          ['G', 'E', 'T'] ++ '|' :: (n.toList ++ '|' :: junk.toList) := by
        simp [String.toList, String.data_append, List.append_assoc]
      rw [hdata, pysplit_append '|' ['G', 'E', 'T'] _ (by decide),
        pysplit_append '|' n.toList junk.toList hn]
      simp [mk_toList]
    have htg2 : split_pipe ("GET|" ++ n) = ["GET", n] := by
      unfold split_pipe
      have hdata : ("GET|" ++ n).toList = ['G', 'E', 'T'] ++ '|' :: n.toList := by
        simp [String.toList, String.data_append]
      rw [hdata, pysplit_append '|' ['G', 'E', 'T'] n.toList (by decide),
        pysplit_no_sep '|' n.toList hn]
      simp [mk_toList]
    rw [lineReceived_get parse devices ("GET|" ++ n ++ "|" ++ junk)
        (n :: (pysplit '|' junk.toList).map String.mk) htg1,
      lineReceived_get parse devices ("GET|" ++ n) [n] htg2,
      handle_get_of_ne_one devices
        ("GET" :: n :: (pysplit '|' junk.toList).map String.mk) (by simp),
      handle_get_of_ne_one devices ["GET", n] (by simp)]
    rfl

/-- C10 witness: at payload `{"a` followed by `|": 1}` the parser sees
only `{"a` (the prefix before the pipe), and `GET|a|junk` behaves like
`GET|a`. -/
theorem c10_payload_pipe_truncated_witness :
    (split_pipe ("SET|" ++ "\x7b\"a|\": 1\x7d")).get? 1 = some "\x7b\"a" ∧
    lineReceived (fun _ => none) [] ("GET|" ++ "a" ++ "|" ++ "junk") =
      lineReceived (fun _ => none) [] ("GET|" ++ "a") := by
  have h := c10_payload_pipe_truncated (fun _ => none) []
    "\x7b\"a|\": 1\x7d" (by decide)
  exact ⟨h.1, h.2.2.2 "a" "junk" (by decide)⟩

end QVibe
